import Mathlib

/-!
Verification of the logging service in `service.py` (class `LoggingServer`).

The Python code is embedded shallowly:
* Python strings are lists of characters (`Str`); `str.strip()` is `pyStrip`
  and `line.split('|')` is `List.splitOn '|'`.
* `self.clientRates` is a map `Str → Option (ℚ × ℕ)`; `time.time()` values are
  rationals; `checkRateLimit` becomes a pure function returning the updated map
  and the decision.
* `handleClient`'s read loop is `runLoop`, consuming a list of received lines,
  each paired with the `time.time()` value and `datetime.utcnow().isoformat()`
  string of its iteration.  `writeLog` appends to the `written` list of the
  loop state.  An exception raised while reading or processing the stream is
  modelled by truncating the input list at the point the exception occurs
  (`err`); the `except` clause swallows it and the `finally` clause still
  appends the disconnect marker.
-/

namespace LoggingService

/-- Python strings, modelled as lists of characters. -/
abbrev Str := List Char

/-- The whitespace characters recognised by Python `str.strip()`
(space, tab, newline, carriage return, vertical tab, form feed). -/
def isSpace (c : Char) : Bool :=
  c == ' ' || c == '\t' || c == '\n' || c == '\r' || c == Char.ofNat 11 || c == Char.ofNat 12

/-- Remove trailing whitespace (the right half of Python `str.strip()`). -/
def stripRight (s : Str) : Str :=
  (s.reverse.dropWhile isSpace).reverse

/-- Python `str.strip()`: remove leading and trailing whitespace. -/
def pyStrip (s : Str) : Str :=
  stripRight (s.dropWhile isSpace)

/-- Model of `self.clientRates`: per client identifier, `(windowStart, count)` as set up
in `checkRateLimit`; absent clients map to `none`. -/
abbrev RateMap := Str → Option (ℚ × ℕ)

/-- Python dict assignment `self.clientRates[clientId] = v`. -/
def updateMap (m : RateMap) (clientId : Str) (v : ℚ × ℕ) : RateMap :=
  fun c => if c = clientId then some v else m c

/-- Embedding of `LoggingServer.checkRateLimit` from `service.py`.  `rateLimit` is
`self.rateLimit` (a Python `int`, possibly non-positive, hence `ℤ`),
`rateWindow` is `self.rateWindow`, `currentTime` is the value of `time.time()`
taken inside the call.  Returns the updated `self.clientRates` together with
the boolean result. -/
def checkRateLimit (rateLimit : ℤ) (rateWindow : ℚ) (clientRates : RateMap)
    (clientId : Str) (currentTime : ℚ) : RateMap × Bool :=
  match clientRates clientId with
  | none => (updateMap clientRates clientId (currentTime, 1), true)
  | some (startTime, count) =>
      let elapsed := currentTime - startTime
      if elapsed > rateWindow then
        (updateMap clientRates clientId (currentTime, 1), true)
      else if (count : ℤ) < rateLimit then
        (updateMap clientRates clientId (startTime, count + 1), true)
      else
        (clientRates, false)

/-- A sequence of `checkRateLimit` calls by one client at the given times:
the final map and the list of decisions, in call order. -/
def runCalls (rateLimit : ℤ) (rateWindow : ℚ) (m : RateMap) (clientId : Str) :
    List ℚ → RateMap × List Bool
  | [] => (m, [])
  | t :: ts =>
      let r := checkRateLimit rateLimit rateWindow m clientId t
      let rest := runCalls rateLimit rateWindow r.1 clientId ts
      (rest.1, r.2 :: rest.2)

/-- One formatted log record, before being rendered through `self.logFormat`. -/
structure Entry where
  timeStamp : Str
  clientId : Str
  category : Str
  message : Str
deriving DecidableEq

/-- Rendering through `self.logFormat`, the string `"{timeStamp} | {clientId} | {category} | {message}"`,
applied to the four fields. -/
def logFormat (timeStamp clientId category message : Str) : Str :=
  timeStamp ++ (" | ".toList) ++ clientId ++ (" | ".toList) ++ category
    ++ (" | ".toList) ++ message

/-- One iteration's worth of external input to the read loop: the line returned
by `file.readline()` and the clock values sampled during that iteration. -/
structure LineInput where
  raw : Str
  now : ℚ
  ts : Str

/-- The mutable state of `handleClient`: the `clientId` local variable, the
shared `self.clientRates` map, and the log file contents written so far. -/
structure HState where
  clientId : Str
  clientRates : RateMap
  written : List Entry

/-- The `while True` read loop of `handleClient`: strip the line, stop on an
empty result, split on `'|'`, discard lines with fewer than 3 segments,
take the first three trimmed segments as `clientId`/`category`/`message`
(rebinding the `clientId` variable), discard lines with an empty field,
consult `checkRateLimit`, and on acceptance write the formatted entry. -/
def runLoop (rateLimit : ℤ) (rateWindow : ℚ) :
    List LineInput → HState → HState
  | [], s => s
  | i :: rest, s =>
      let line := pyStrip i.raw
      if line = [] then s
      else
        match line.splitOn '|' with
        | p0 :: p1 :: p2 :: _ =>
            let clientId := pyStrip p0
            let category := pyStrip p1
            let message := pyStrip p2
            let s1 : HState := { s with clientId := clientId }
            if clientId = [] ∨ category = [] ∨ message = [] then
              runLoop rateLimit rateWindow rest s1
            else
              let r := checkRateLimit rateLimit rateWindow s1.clientRates clientId i.now
              let s2 : HState := { s1 with clientRates := r.1 }
              if r.2 then
                runLoop rateLimit rateWindow rest
                  { s2 with written :=
                      s2.written ++ [⟨i.ts, clientId, category, message⟩] }
              else
                runLoop rateLimit rateWindow rest s2
        | _ => runLoop rateLimit rateWindow rest s

/-- The address-derived client identity `f"{addr[0]}:{addr[1]}"`. -/
def addrId (addr : Str × ℕ) : Str :=
  addr.1 ++ (":".toList) ++ (Nat.repr addr.2).toList

/-- The connect marker written on entry to `handleClient`. -/
def connectedEntry (ts clientId : Str) : Entry :=
  ⟨ts, clientId, "CONNECTED".toList, "Client has connected.".toList⟩

/-- The disconnect marker written in the `finally` block of `handleClient`. -/
def disconnectedEntry (ts clientId : Str) : Entry :=
  ⟨ts, clientId, "DISCONNECTED".toList, "Client has disconnected.".toList⟩

/-- The lines actually processed: all of them when no exception occurs, or the
first `k` when an exception interrupts reading/processing after `k` lines. -/
def effectiveInputs (inputs : List LineInput) (err : Option ℕ) : List LineInput :=
  match err with
  | none => inputs
  | some k => inputs.take k

/-- Embedding of `LoggingServer.handleClient`: write the `CONNECTED` marker for the
address-derived identity, run the read loop over the processed lines, and in
the `finally` block write the `DISCONNECTED` marker for whatever value the
`clientId` variable holds at that point. -/
def handleClient (rateLimit : ℤ) (rateWindow : ℚ) (addr : Str × ℕ)
    (inputs : List LineInput) (err : Option ℕ) (tsConn tsDisc : Str)
    (rates0 : RateMap) : HState :=
  let clientId := addrId addr
  let s0 : HState := ⟨clientId, rates0, [connectedEntry tsConn clientId]⟩
  let s1 := runLoop rateLimit rateWindow (effectiveInputs inputs err) s0
  { s1 with written := s1.written ++ [disconnectedEntry tsDisc s1.clientId] }

/-- The identity the disconnect marker actually uses: the trimmed first
segment of the most recent processed line that split into at least 3 segments
(regardless of whether its trimmed fields were empty or whether it was
accepted), the initial identity if no such line exists. -/
def lastSplitCid (cur : Str) : List Str → Str
  | [] => cur
  | raw :: rest =>
      let line := pyStrip raw
      if line = [] then cur
      else
        match line.splitOn '|' with
        | p0 :: _ :: _ :: _ => lastSplitCid (pyStrip p0) rest
        | _ => lastSplitCid cur rest

/-- The per-client count invariant of claim C10: every stored count lies
between 1 and the configured rate limit. -/
def RateInv (rateLimit : ℤ) (m : RateMap) : Prop :=
  ∀ clientId ws c, m clientId = some (ws, c) → 1 ≤ c ∧ (c : ℤ) ≤ rateLimit

/-! ### Basic lemmas about the map update and the rate limiter branches -/

theorem updateMap_same (m : RateMap) (cid : Str) (v : ℚ × ℕ) :
    updateMap m cid v cid = some v :=
  if_pos rfl

theorem updateMap_other (m : RateMap) (cid : Str) (v : ℚ × ℕ) (c : Str)
    (h : c ≠ cid) : updateMap m cid v c = m c :=
  if_neg h

theorem checkRateLimit_of_none {m : RateMap} {cid : Str} (lim : ℤ) (win : ℚ)
    (now : ℚ) (h : m cid = none) :
    checkRateLimit lim win m cid now = (updateMap m cid (now, 1), true) := by
  simp only [checkRateLimit, h]

theorem checkRateLimit_of_reset {m : RateMap} {cid : Str} {ws : ℚ} {c : ℕ}
    (lim : ℤ) {win now : ℚ} (h : m cid = some (ws, c)) (hw : now - ws > win) :
    checkRateLimit lim win m cid now = (updateMap m cid (now, 1), true) := by
  simp only [checkRateLimit, h, if_pos hw]

theorem checkRateLimit_of_incr {m : RateMap} {cid : Str} {ws : ℚ} {c : ℕ}
    {lim : ℤ} {win now : ℚ} (h : m cid = some (ws, c)) (hw : ¬ now - ws > win)
    (hc : (c : ℤ) < lim) :
    checkRateLimit lim win m cid now = (updateMap m cid (ws, c + 1), true) := by
  simp only [checkRateLimit, h, if_neg hw, if_pos hc]

theorem checkRateLimit_of_reject {m : RateMap} {cid : Str} {ws : ℚ} {c : ℕ}
    {lim : ℤ} {win now : ℚ} (h : m cid = some (ws, c)) (hw : ¬ now - ws > win)
    (hc : ¬ (c : ℤ) < lim) :
    checkRateLimit lim win m cid now = (m, false) := by
  simp only [checkRateLimit, h, if_neg hw, if_neg hc]

/-! ### Claim C1: the fixed-window counter algorithm -/

/-- C1.  `checkRateLimit` implements the specified fixed-window counter: an
unseen client gets state `(now, 1)` and is accepted; a client whose window has
elapsed (`now - windowStart > windowLength`) is reset to `(now, 1)` and
accepted; a client under the limit gets `(windowStart, count + 1)` and is
accepted; otherwise the call rejects and leaves the map untouched. -/
theorem checkRateLimit_fixed_window (lim : ℤ) (win : ℚ) (m : RateMap)
    (cid : Str) (now : ℚ) :
    (m cid = none →
        checkRateLimit lim win m cid now = (updateMap m cid (now, 1), true)) ∧
    (∀ ws c, m cid = some (ws, c) →
        (now - ws > win →
            checkRateLimit lim win m cid now = (updateMap m cid (now, 1), true)) ∧
        (¬ now - ws > win → (c : ℤ) < lim →
            checkRateLimit lim win m cid now =
              (updateMap m cid (ws, c + 1), true)) ∧
        (¬ now - ws > win → ¬ (c : ℤ) < lim →
            checkRateLimit lim win m cid now = (m, false))) := by
  refine ⟨fun h => checkRateLimit_of_none lim win now h, fun ws c h => ⟨?_, ?_, ?_⟩⟩
  · exact fun hw => checkRateLimit_of_reset lim h hw
  · exact fun hw hc => checkRateLimit_of_incr h hw hc
  · exact fun hw hc => checkRateLimit_of_reject h hw hc

/-- Witness for C1: a concrete unseen client is registered with count 1 and
accepted. -/
theorem checkRateLimit_fixed_window_witness :
    checkRateLimit 2 1 (fun _ => none) "a".toList 0 =
      (updateMap (fun _ => none) "a".toList (0, 1), true) :=
  (checkRateLimit_fixed_window 2 1 (fun _ => none) "a".toList 0).1 rfl

/-! ### Claim C6: rejection never mutates the rate state -/

/-- C6.  Whenever `checkRateLimit` rejects (returns `False`), the whole
`clientRates` map — the rejected client's pair and every other client's
entry — is unchanged. -/
theorem checkRateLimit_reject_no_mutation (lim : ℤ) (win : ℚ) (m : RateMap)
    (cid : Str) (now : ℚ) (h : (checkRateLimit lim win m cid now).2 = false) :
    (checkRateLimit lim win m cid now).1 = m := by
  rcases hm : m cid with - | ⟨ws, c⟩
  · rw [checkRateLimit_of_none lim win now hm] at h
    cases h
  · by_cases hw : now - ws > win
    · rw [checkRateLimit_of_reset lim hm hw] at h
      cases h
    · by_cases hc : (c : ℤ) < lim
      · rw [checkRateLimit_of_incr hm hw hc] at h
        cases h
      · rw [checkRateLimit_of_reject hm hw hc]

/-- Witness for C6: a client already at limit 1 inside its window is rejected
and the map is returned unchanged. -/
theorem checkRateLimit_reject_no_mutation_witness :
    (checkRateLimit 1 1 (fun c => if c = "a".toList then some ((0 : ℚ), 1) else none)
        "a".toList 0).1 =
      (fun c => if c = "a".toList then some ((0 : ℚ), 1) else none) :=
  checkRateLimit_reject_no_mutation 1 1 _ "a".toList 0
    (by rw [checkRateLimit_of_reject (if_pos rfl) (by norm_num) (by norm_num)])

/-! ### Claim C7: clients are independent -/

/-- C7.  A `checkRateLimit` call for `c1` leaves any other client `c2`'s entry
unchanged, and its accept/reject decision is a function of `c1`'s entry alone:
any map agreeing with `m` at `c1` yields the same decision.  In particular one
client being at its limit never causes a rejection for another. -/
theorem checkRateLimit_independent (lim : ℤ) (win : ℚ) (m : RateMap)
    (c1 c2 : Str) (now : ℚ) (h : c1 ≠ c2) :
    (checkRateLimit lim win m c1 now).1 c2 = m c2 ∧
    ∀ m' : RateMap, m' c1 = m c1 →
      (checkRateLimit lim win m' c1 now).2 = (checkRateLimit lim win m c1 now).2 := by
  constructor
  · rcases hm : m c1 with - | ⟨ws, c⟩
    · rw [checkRateLimit_of_none lim win now hm]
      exact updateMap_other _ _ _ _ (Ne.symm h)
    · by_cases hw : now - ws > win
      · rw [checkRateLimit_of_reset lim hm hw]
        exact updateMap_other _ _ _ _ (Ne.symm h)
      · by_cases hc : (c : ℤ) < lim
        · rw [checkRateLimit_of_incr hm hw hc]
          exact updateMap_other _ _ _ _ (Ne.symm h)
        · rw [checkRateLimit_of_reject hm hw hc]
  · intro m' hm'
    rcases hm : m c1 with - | ⟨ws, c⟩
    · rw [checkRateLimit_of_none lim win now (hm'.trans hm),
        checkRateLimit_of_none lim win now hm]
    · by_cases hw : now - ws > win
      · rw [checkRateLimit_of_reset lim (hm'.trans hm) hw,
          checkRateLimit_of_reset lim hm hw]
      · by_cases hc : (c : ℤ) < lim
        · rw [checkRateLimit_of_incr (hm'.trans hm) hw hc,
            checkRateLimit_of_incr hm hw hc]
        · rw [checkRateLimit_of_reject (hm'.trans hm) hw hc,
            checkRateLimit_of_reject hm hw hc]

/-- Witness for C7: a call for client `"a"` does not touch client `"b"`'s
(absent) entry. -/
theorem checkRateLimit_independent_witness :
    (checkRateLimit 1 1 (fun _ => none) "a".toList 0).1 "b".toList = none :=
  (checkRateLimit_independent 1 1 (fun _ => none) "a".toList "b".toList 0
    (by decide)).1

/-! ### Claim C10: stored counts stay between 1 and the limit -/

/-- C10.  If the configured rate limit is at least 1, then `checkRateLimit`
preserves the invariant that every stored `(windowStart, count)` entry has
`1 ≤ count ≤ rateLimit`: counts are set to 1 on creation or window reset and
only incremented when strictly below the limit. -/
theorem checkRateLimit_count_bounds (lim : ℤ) (win : ℚ) (m : RateMap)
    (cid : Str) (now : ℚ) (hlim : 1 ≤ lim) (hm : RateInv lim m) :
    RateInv lim (checkRateLimit lim win m cid now).1 := by
  have fresh : ∀ t : ℚ, RateInv lim (updateMap m cid (t, 1)) := by
    intro t cid' ws' c' h'
    by_cases hcc : cid' = cid
    · subst hcc
      rw [updateMap_same] at h'
      simp only [Option.some.injEq, Prod.mk.injEq] at h'
      exact h'.2 ▸ ⟨le_refl 1, by exact_mod_cast hlim⟩
    · rw [updateMap_other _ _ _ _ hcc] at h'
      exact hm _ _ _ h'
  rcases hmc : m cid with - | ⟨ws, c⟩
  · rw [checkRateLimit_of_none lim win now hmc]
    exact fresh now
  · by_cases hw : now - ws > win
    · rw [checkRateLimit_of_reset lim hmc hw]
      exact fresh now
    · by_cases hc : (c : ℤ) < lim
      · rw [checkRateLimit_of_incr hmc hw hc]
        show RateInv lim (updateMap m cid (ws, c + 1))
        intro cid' ws' c' h'
        by_cases hcc : cid' = cid
        · subst hcc
          rw [updateMap_same] at h'
          simp only [Option.some.injEq, Prod.mk.injEq] at h'
          refine h'.2 ▸ ⟨Nat.le_add_left 1 c, ?_⟩
          push_cast
          omega
        · rw [updateMap_other _ _ _ _ hcc] at h'
          exact hm _ _ _ h'
      · rw [checkRateLimit_of_reject hmc hw hc]
        exact hm

/-- Witness for C10: the invariant holds after a first call on an empty map
with limit 1. -/
theorem checkRateLimit_count_bounds_witness :
    RateInv 1 (checkRateLimit 1 1 (fun _ => none) "a".toList 0).1 :=
  checkRateLimit_count_bounds 1 1 (fun _ => none) "a".toList 0 (le_refl 1)
    (fun _ _ _ h => by cases h)

/-! ### Claim C3: exactly `L` calls fit in one window -/

/-- A client whose entry is `(t0, c)` and whose further call times stay within
the window is accepted on every call while the count can still grow to the
limit, ending with count `c + ts.length` and window start still `t0`. -/
theorem runCalls_within_window (lim : ℤ) (win : ℚ) (cid : Str) (t0 : ℚ) :
    ∀ (ts : List ℚ) (m : RateMap) (c : ℕ),
      m cid = some (t0, c) →
      (∀ t ∈ ts, t - t0 ≤ win) →
      ((c : ℤ) + ts.length ≤ lim) →
      (runCalls lim win m cid ts).2 = List.replicate ts.length true ∧
      (runCalls lim win m cid ts).1 cid = some (t0, c + ts.length) := by
  intro ts
  induction ts with
  | nil =>
      intro m c hm _ _
      exact ⟨rfl, by simpa using hm⟩
  | cons t ts ih =>
      intro m c hm hin hlen
      have hw : ¬ t - t0 > win := not_lt.mpr (hin t (List.mem_cons_self t ts))
      have hc : (c : ℤ) < lim := by
        simp only [List.length_cons] at hlen
        push_cast at hlen
        omega
      have step := checkRateLimit_of_incr hm hw hc
      have tail := ih (updateMap m cid (t0, c + 1)) (c + 1) (updateMap_same _ _ _)
        (fun u hu => hin u (List.mem_cons_of_mem t hu))
        (by simp only [List.length_cons] at hlen; push_cast at hlen ⊢; omega)
      simp only [runCalls, step, tail.1, tail.2, List.length_cons,
        List.replicate_succ, true_and]
      have : c + 1 + ts.length = c + (ts.length + 1) := by omega
      rw [this]

/-- C3.  For a window length `W` and limit `L ≥ 1`, a previously unseen client
whose `L` call times all lie within an interval shorter than `W` starting at
the first call is accepted on all `L` calls, and an `(L+1)`-th call whose
elapsed time from the window start does not exceed `W` is rejected. -/
theorem checkRateLimit_window_limit (L : ℕ) (win : ℚ) (m : RateMap) (cid : Str)
    (t0 : ℚ) (ts : List ℚ) (tNext : ℚ) (hL : 1 ≤ L) (hfresh : m cid = none)
    (hlen : (t0 :: ts).length = L)
    (hin : ∀ t ∈ t0 :: ts, t0 ≤ t ∧ t - t0 < win)
    (hNext : tNext - t0 ≤ win) :
    (runCalls (L : ℤ) win m cid (t0 :: ts)).2 = List.replicate L true ∧
    (checkRateLimit (L : ℤ) win (runCalls (L : ℤ) win m cid (t0 :: ts)).1
        cid tNext).2 = false := by
  have first := checkRateLimit_of_none (L : ℤ) win t0 hfresh
  have tail := runCalls_within_window (L : ℤ) win cid t0 ts
    (updateMap m cid (t0, 1)) 1 (updateMap_same _ _ _)
    (fun u hu => le_of_lt (hin u (List.mem_cons_of_mem t0 hu)).2)
    (by simp only [List.length_cons] at hlen; push_cast; omega)
  have hcount : 1 + ts.length = L := by
    simp only [List.length_cons] at hlen
    omega
  constructor
  · simp only [runCalls, first, tail.1]
    rw [show (t0 :: ts).length = ts.length + 1 from List.length_cons t0 ts] at hlen
    rw [← hlen, List.replicate_succ]
  · have hfinal : (runCalls (L : ℤ) win m cid (t0 :: ts)).1 cid = some (t0, L) := by
      simp only [runCalls, first]
      rw [tail.2, hcount]
    have hnotlt : ¬ ((L : ℕ) : ℤ) < (L : ℤ) := lt_irrefl _
    rw [checkRateLimit_of_reject hfinal (not_lt.mpr hNext) hnotlt]

/-- Witness for C3: with limit 2 and window 1, two calls at time 0 are both
accepted and a third call at time 0 is rejected. -/
theorem checkRateLimit_window_limit_witness :
    (runCalls (2 : ℤ) 1 (fun _ => none) "a".toList [0, 0]).2 =
        List.replicate 2 true ∧
    (checkRateLimit (2 : ℤ) 1 (runCalls (2 : ℤ) 1 (fun _ => none) "a".toList
        [0, 0]).1 "a".toList 0).2 = false :=
  checkRateLimit_window_limit 2 1 (fun _ => none) "a".toList 0 [0] 0
    (by norm_num) rfl rfl
    (by
      intro t ht
      simp only [List.mem_cons, List.not_mem_nil, or_false] at ht
      rcases ht with rfl | rfl <;> norm_num)
    (by norm_num)

/-! ### Claim C9: an all-whitespace line terminates the read loop -/

/-- C9.  A received line consisting only of whitespace characters terminates
the read loop exactly like an empty line: the loop state is returned as is, so
nothing from this line or any later line is parsed, rate-limited or logged. -/
theorem runLoop_whitespace_line (lim : ℤ) (win : ℚ) (i : LineInput)
    (rest : List LineInput) (s : HState) (h : ∀ c ∈ i.raw, isSpace c = true) :
    runLoop lim win (i :: rest) s = s := by
  have hd : i.raw.dropWhile isSpace = [] := List.dropWhile_eq_nil_iff.mpr h
  have hs : pyStrip i.raw = [] := by simp [pyStrip, stripRight, hd]
  simp [runLoop, hs]

/-- Witness for C9: a line of blanks and a tab stops the loop even though a
valid line follows. -/
theorem runLoop_whitespace_line_witness :
    runLoop 1 1 [⟨"  \t ".toList, 0, "T1".toList⟩, ⟨"a|b|c".toList, 0, "T2".toList⟩]
        ⟨"z".toList, fun _ => none, []⟩ =
      ⟨"z".toList, fun _ => none, []⟩ :=
  runLoop_whitespace_line 1 1 _ _ _ (by decide)

/-! ### Claim C5: line validation and field extraction -/

/-- C5.  For a non-empty (after stripping) line: if splitting on `'|'` yields
fewer than 3 segments the line is discarded and the loop continues with the
state untouched; if any of the first three trimmed segments is empty the line
is discarded without consulting the rate limiter (only the `clientId` variable
is rebound); otherwise exactly the first three trimmed segments become
`clientId`/`category`/`message` — content after the third segment is dropped —
and the entry is written exactly when the rate limiter accepts.  Concretely,
`"c1 | CAT | hello | extra|stuff"` yields the trimmed segments
`c1 / CAT / hello / extra / stuff`, of which only the first three are used, so
the message is exactly `"hello"`. -/
theorem runLoop_parse_step (lim : ℤ) (win : ℚ) (i : LineInput)
    (rest : List LineInput) (s : HState) (hne : pyStrip i.raw ≠ []) :
    (((pyStrip i.raw).splitOn '|').length < 3 →
        runLoop lim win (i :: rest) s = runLoop lim win rest s) ∧
    (∀ p0 p1 p2 tl, (pyStrip i.raw).splitOn '|' = p0 :: p1 :: p2 :: tl →
        ((pyStrip p0 = [] ∨ pyStrip p1 = [] ∨ pyStrip p2 = []) →
            runLoop lim win (i :: rest) s =
              runLoop lim win rest ⟨pyStrip p0, s.clientRates, s.written⟩) ∧
        (pyStrip p0 ≠ [] → pyStrip p1 ≠ [] → pyStrip p2 ≠ [] →
            runLoop lim win (i :: rest) s =
              runLoop lim win rest
                ⟨pyStrip p0,
                 (checkRateLimit lim win s.clientRates (pyStrip p0) i.now).1,
                 s.written ++
                   (if (checkRateLimit lim win s.clientRates (pyStrip p0) i.now).2
                    then [⟨i.ts, pyStrip p0, pyStrip p1, pyStrip p2⟩]
                    else [])⟩)) ∧
    (((pyStrip "c1 | CAT | hello | extra|stuff".toList).splitOn '|').map pyStrip =
      ["c1".toList, "CAT".toList, "hello".toList, "extra".toList,
        "stuff".toList]) := by
  refine ⟨?_, ?_, by decide⟩
  · intro hlen
    rcases hp : (pyStrip i.raw).splitOn '|' with - | ⟨p0, - | ⟨p1, - | ⟨p2, tl⟩⟩⟩
    · simp [runLoop, hne, hp]
    · simp [runLoop, hne, hp]
    · simp [runLoop, hne, hp]
    · rw [hp] at hlen
      simp at hlen
      omega
  · intro p0 p1 p2 tl hp
    constructor
    · intro hemp
      simp only [runLoop, hp, if_neg hne]
      rw [if_pos hemp]
    · intro h0 h1 h2
      simp only [runLoop, hp, if_neg hne]
      rw [if_neg (by simp [h0, h1, h2])]
      rcases hr : checkRateLimit lim win s.clientRates (pyStrip p0) i.now
        with ⟨m', ok⟩
      cases ok
      · simp
      · simp

/-- Witness for C5: a two-segment line `"a|b"` is discarded and the loop
continues with the state untouched. -/
theorem runLoop_parse_step_witness :
    runLoop 1 1 [⟨"a|b".toList, 0, "T1".toList⟩] ⟨"z".toList, fun _ => none, []⟩ =
      ⟨"z".toList, fun _ => none, []⟩ :=
  (runLoop_parse_step 1 1 ⟨"a|b".toList, 0, "T1".toList⟩ []
    ⟨"z".toList, fun _ => none, []⟩ (by decide)).1 (by decide)

/-! ### The loop's clientId and written-entry bookkeeping -/

/-- The `clientId` variable after the loop is `lastSplitCid` of the raw lines:
it is rebound exactly on lines that split into at least 3 segments. -/
theorem runLoop_clientId_eq (lim : ℤ) (win : ℚ) :
    ∀ (is : List LineInput) (s : HState),
      (runLoop lim win is s).clientId =
        lastSplitCid s.clientId (is.map LineInput.raw) := by
  intro is
  induction is with
  | nil => intro s; rfl
  | cons i rest ih =>
      intro s
      by_cases hl : pyStrip i.raw = []
      · simp [runLoop, lastSplitCid, hl]
      · rcases hp : (pyStrip i.raw).splitOn '|' with - | ⟨p0, - | ⟨p1, - | ⟨p2, tl⟩⟩⟩
        · simp [runLoop, lastSplitCid, hl, hp, ih]
        · simp [runLoop, lastSplitCid, hl, hp, ih]
        · simp [runLoop, lastSplitCid, hl, hp, ih]
        · by_cases hemp : pyStrip p0 = [] ∨ pyStrip p1 = [] ∨ pyStrip p2 = []
          · simp only [runLoop, lastSplitCid, hl, hp, if_neg hl, if_pos hemp,
              List.map_cons]
            simp [ih]
          · simp only [runLoop, lastSplitCid, hl, hp, if_neg hl, if_neg hemp,
              List.map_cons]
            rcases hr : checkRateLimit lim win s.clientRates (pyStrip p0) i.now
              with ⟨m', ok⟩
            cases ok <;> simp [ih]

/-- Running the loop with some entries already written only appends: the
final `clientId` and rate map are those of a run started with an empty log,
and the written list is the prefix followed by that run's entries. -/
theorem runLoop_written_eq (lim : ℤ) (win : ℚ) :
    ∀ (is : List LineInput) (c : Str) (r : RateMap) (w : List Entry),
      runLoop lim win is ⟨c, r, w⟩ =
        ⟨(runLoop lim win is ⟨c, r, []⟩).clientId,
         (runLoop lim win is ⟨c, r, []⟩).clientRates,
         w ++ (runLoop lim win is ⟨c, r, []⟩).written⟩ := by
  intro is
  induction is with
  | nil => intro c r w; simp [runLoop]
  | cons i rest ih =>
      intro c r w
      by_cases hl : pyStrip i.raw = []
      · simp [runLoop, hl]
      · rcases hp : (pyStrip i.raw).splitOn '|' with - | ⟨p0, - | ⟨p1, - | ⟨p2, tl⟩⟩⟩
        · simp only [runLoop, hl, if_neg hl, hp]
          exact ih c r w
        · simp only [runLoop, hl, if_neg hl, hp]
          exact ih c r w
        · simp only [runLoop, hl, if_neg hl, hp]
          exact ih c r w
        · by_cases hemp : pyStrip p0 = [] ∨ pyStrip p1 = [] ∨ pyStrip p2 = []
          · simp only [runLoop, hl, if_neg hl, hp, if_pos hemp]
            exact ih (pyStrip p0) r w
          · simp only [runLoop, hl, if_neg hl, hp, if_neg hemp]
            rcases hr : checkRateLimit lim win r (pyStrip p0) i.now with ⟨m', ok⟩
            cases ok
            · exact ih (pyStrip p0) m' w
            · have e1 := ih (pyStrip p0) m'
                (w ++ [⟨i.ts, pyStrip p0, pyStrip p1, pyStrip p2⟩])
              have e2 := ih (pyStrip p0) m'
                [⟨i.ts, pyStrip p0, pyStrip p1, pyStrip p2⟩]
              simp only [List.nil_append] at e2
              simp [e1, e2, List.append_assoc]

/-! ### Claim C4: exactly one CONNECTED and one DISCONNECTED marker -/

/-- C4.  For every connection — whatever lines arrive and wherever an error
interrupts reading or processing (`err`) — the written log is exactly one
`CONNECTED` marker for the address-derived identity, followed by the message
entries produced by the read loop, followed by exactly one `DISCONNECTED`
marker; so each marker is emitted exactly once and `CONNECTED` comes first. -/
theorem handleClient_markers (lim : ℤ) (win : ℚ) (addr : Str × ℕ)
    (inputs : List LineInput) (err : Option ℕ) (tsConn tsDisc : Str)
    (rates0 : RateMap) :
    (handleClient lim win addr inputs err tsConn tsDisc rates0).written =
      connectedEntry tsConn (addrId addr) ::
        ((runLoop lim win (effectiveInputs inputs err)
            ⟨addrId addr, rates0, []⟩).written ++
          [disconnectedEntry tsDisc
            (runLoop lim win (effectiveInputs inputs err)
              ⟨addrId addr, rates0, []⟩).clientId]) := by
  simp only [handleClient]
  rw [runLoop_written_eq lim win (effectiveInputs inputs err) (addrId addr)
    rates0 [connectedEntry tsConn (addrId addr)]]
  simp

/-! ### Claim C2: which identity the disconnect marker uses -/

/-- Counterexample to C2 as stated.  The single received line `"x||y"` splits
into 3 segments but its second trimmed field is empty, so it never reaches the
rate-limit step; the claim then demands the address-derived identity
`"1.2.3.4:5"` in the `DISCONNECTED` entry, yet the code emits it for `"x"`:
`clientId` is rebound before the empty-field check. -/
theorem handleClient_disconnect_identity_cex :
    ((handleClient 5 1 ("1.2.3.4".toList, 5) [⟨"x||y".toList, 0, "T1".toList⟩]
        none "T0".toList "T2".toList (fun _ => none)).written.getLast? =
      some (disconnectedEntry "T2".toList "x".toList)) ∧
    (((pyStrip "x||y".toList).splitOn '|').map pyStrip =
      ["x".toList, [], "y".toList]) ∧
    "x".toList ≠ addrId ("1.2.3.4".toList, 5) := by
  refine ⟨by decide, by decide, by decide⟩

/-- C2 (amended).  The `DISCONNECTED` entry uses the clientId parsed (first
trimmed segment) from the most recent processed line that split into at least
3 segments — regardless of whether its three trimmed fields were non-empty and
regardless of accept/reject — and the original address-derived identity if no
line ever split into at least 3 segments. -/
theorem handleClient_disconnect_identity (lim : ℤ) (win : ℚ) (addr : Str × ℕ)
    (inputs : List LineInput) (err : Option ℕ) (tsConn tsDisc : Str)
    (rates0 : RateMap) :
    (handleClient lim win addr inputs err tsConn tsDisc rates0).written.getLast? =
      some (disconnectedEntry tsDisc
        (lastSplitCid (addrId addr)
          ((effectiveInputs inputs err).map LineInput.raw))) := by
  simp only [handleClient, List.getLast?_concat]
  rw [runLoop_clientId_eq]

/-! ### Claim C8: format / parse round-trip -/

theorem pyStrip_cons_of_space {c : Char} (h : isSpace c = true) (l : Str) :
    pyStrip (c :: l) = pyStrip l := by
  simp [pyStrip, List.dropWhile_cons, h]

theorem stripRight_append_of_space {c : Char} (h : isSpace c = true) (l : Str) :
    stripRight (l ++ [c]) = stripRight l := by
  simp [stripRight, List.dropWhile_cons, h]

theorem pyStrip_cons_of_not_space {a : Char} (ha : ¬ isSpace a = true) (l : Str) :
    pyStrip (a :: l) = stripRight (a :: l) := by
  simp [pyStrip, List.dropWhile_cons, ha]

theorem pyStrip_append_of_space {c : Char} (h : isSpace c = true) :
    ∀ l : Str, pyStrip (l ++ [c]) = pyStrip l := by
  intro l
  induction l with
  | nil => simp [pyStrip, stripRight, List.dropWhile, h]
  | cons a l ih =>
      by_cases ha : isSpace a = true
      · rw [List.cons_append, pyStrip_cons_of_space ha, ih,
          ← pyStrip_cons_of_space ha]
      · rw [List.cons_append, pyStrip_cons_of_not_space ha,
          show a :: (l ++ [c]) = (a :: l) ++ [c] from (List.cons_append a l [c]).symm,
          stripRight_append_of_space h, ← pyStrip_cons_of_not_space ha]

theorem splitOn_append_sep {a : Str} (h : '|' ∉ a) (b : Str) :
    (a ++ '|' :: b).splitOn '|' = a :: b.splitOn '|' := by
  simp only [List.splitOn]
  refine List.splitOnP_first _ _ (fun x hx => ?_) '|' (by simp) b
  simp only [beq_iff_eq]
  exact fun e => h (e ▸ hx)

theorem splitOn_eq_single {a : Str} (h : '|' ∉ a) : a.splitOn '|' = [a] := by
  simp only [List.splitOn]
  refine List.splitOnP_eq_single _ _ (fun x hx => ?_)
  simp only [beq_iff_eq]
  exact fun e => h (e ▸ hx)

/-- C8.  Formatting a log entry with
`"{timeStamp} | {clientId} | {category} | {message}"` and parsing the result
the way the read loop parses a wire line — split on `'|'` and trim each
segment — recovers the original `clientId`, `category` and `message` in
segments 1, 2 and 3, whenever those three fields are as the line parser
produces them (trimmed, non-empty and `'|'`-free) and the timestamp is
`'|'`-free (ISO-8601 timestamps are). -/
theorem logFormat_roundTrip (ts cid cat msg : Str) (hts : '|' ∉ ts)
    (hcid : '|' ∉ cid) (hcat : '|' ∉ cat) (hmsg : '|' ∉ msg)
    (hcid' : pyStrip cid = cid) (hcat' : pyStrip cat = cat)
    (hmsg' : pyStrip msg = msg) (hcidne : cid ≠ []) (hcatne : cat ≠ [])
    (hmsgne : msg ≠ []) :
    ((logFormat ts cid cat msg).splitOn '|').map pyStrip =
      [pyStrip ts, cid, cat, msg] := by
  have hsp : isSpace ' ' = true := rfl
  have e : logFormat ts cid cat msg =
      (ts ++ [' ']) ++ '|' :: ((' ' :: (cid ++ [' '])) ++ '|' ::
        ((' ' :: (cat ++ [' '])) ++ '|' :: (' ' :: msg))) := by
    simp [logFormat, List.append_assoc]
  have h1 : '|' ∉ ts ++ [' '] := by simp [hts]
  have h2 : '|' ∉ ' ' :: (cid ++ [' ']) := by simp [hcid]
  have h3 : '|' ∉ ' ' :: (cat ++ [' ']) := by simp [hcat]
  have h4 : '|' ∉ ' ' :: msg := by simp [hmsg]
  rw [e, splitOn_append_sep h1, splitOn_append_sep h2, splitOn_append_sep h3,
    splitOn_eq_single h4]
  simp only [List.map_cons, List.map_nil, pyStrip_append_of_space hsp,
    pyStrip_cons_of_space hsp, hcid', hcat', hmsg']

/-- Witness for C8: a concrete formatted entry parses back to its fields. -/
theorem logFormat_roundTrip_witness :
    ((logFormat "2025-01-31T12:00:00".toList "c1".toList "CAT".toList
        "hello".toList).splitOn '|').map pyStrip =
      [pyStrip "2025-01-31T12:00:00".toList, "c1".toList, "CAT".toList,
        "hello".toList] :=
  logFormat_roundTrip "2025-01-31T12:00:00".toList "c1".toList "CAT".toList
    "hello".toList (by decide) (by decide) (by decide) (by decide) (by decide)
    (by decide) (by decide) (by decide) (by decide) (by decide)

end LoggingService
